import Mathlib

/-!
Verification of the agrogeo24 2.5D DC-resistivity forward-modeling notebook
(`src/exercises/01-forward-dc-resisitivity-2d-exercise.ipynb`).

The notebook is a linear pipeline: topography, survey, tree mesh
(base sizing, refinement, finalize), active cells, model, mapping,
simulation, post-processing.  The concrete code present in the notebook
(mesh sizing, refinement schedules, finalize, the plotting map, the
post-processing dispatch) is embedded directly; pipeline stages that the
notebook delegates to the external SimPEG / discretize libraries or leaves
as blank exercise cells are modelled from the design document, and each
such definition says so in its doc comment.
-/

namespace Agrogeo

/-! ## Mesh base-grid sizing (notebook cell: `nbcx`, `nbcy`)

The notebook computes
`nbcx = 2 ** int(np.round(np.log(dom_width_x / dh) / np.log(2.0)))`,
i.e. two raised to the rounding of `log2 (dom_width / dh)`.

For a rational ratio `r ≥ 1`, `round (log2 r)` is the unique natural `k`
with `2 ^ (2*k - 1) ≤ r ^ 2 < 2 ^ (2*k + 1)` (a tie `log2 r = k + 1/2`
would force `r = 2 ^ (k + 1/2)`, which is irrational, so rounding mode is
irrelevant).  `rlog2aux fuel s` computes that `k` for `s = r ^ 2` by
repeatedly dividing by 4. -/

def rlog2aux : ℕ → ℚ → ℕ
  | 0, _ => 0
  | fuel + 1, s => if s < 2 then 0 else rlog2aux fuel (s / 4) + 1

/-- `round (log2 r)` for a rational `r ≥ 1`, as used by the notebook's
`np.round(np.log(ratio) / np.log(2.0))`. -/
def rlog2 (r : ℚ) : ℕ :=
  rlog2aux (r * r).num.natAbs (r * r)

/-- Number of base cells chosen along one axis:
`2 ** int(np.round(np.log(dom_width / dh) / np.log(2.0)))`. -/
def nbcells (dh domWidth : ℚ) : ℕ :=
  2 ^ rlog2 (domWidth / dh)

/-! ## Mesh refinement passes (notebook cell: `refine_points` / `refine_surface`)

The notebook refines near the electrodes with
`padding_cells_by_level=[10, 8, 8, 8, 4, 4]` and near the topographic
surface — restricted to the points with `np.abs(x_topo) < 150.0` — with
`padding_cells_by_level=[0, 0, 4, 4]`.  In both calls the first list entry
is the padding at the finest refinement level. -/

/-- Padding schedule of the near-electrode `refine_points` call. -/
def electrode_padding_cells_by_level : List ℕ := [10, 8, 8, 8, 4, 4]

/-- Padding schedule of the near-topography `refine_surface` call. -/
def surface_padding_cells_by_level : List ℕ := [0, 0, 4, 4]

/-- The surface points handed to `refine_surface`:
`topo_2d[np.abs(x_topo) < 150.0, :]`. -/
def surface_refine_window (topo : List (ℚ × ℚ)) : List (ℚ × ℚ) :=
  topo.filter (fun p => |p.1| < 150)

/-! ## Mesh lifecycle (notebook cells: `refine_points`, `refine_surface`,
`mesh.finalize()`)

The notebook issues exactly three mesh operations, in this order:
`mesh.refine_points(..., finalize=False)`,
`mesh.refine_surface(..., finalize=False)`, `mesh.finalize()`.
The tree-mesh lifecycle is embedded as a state machine: refinement calls
are rejected once the mesh is finalized, finalize is irreversible, and the
recorded refinements (which determine the cell geometry) never change
after finalize. -/

inductive MeshOp where
  | refinePoints (points : List (ℚ × ℚ)) (padding : List ℕ)
  | refineSurface (surface : List (ℚ × ℚ)) (padding : List ℕ)
  | finalizeMesh
deriving DecidableEq

def MeshOp.isFinalize : MeshOp → Bool
  | .finalizeMesh => true
  | _ => false

structure TreeMeshState where
  refinements : List MeshOp
  finalized : Bool
deriving DecidableEq

/-- One mesh call: refinement is only permitted (and recorded) before
finalize; finalize is only permitted once. -/
def TreeMesh_step (m : TreeMeshState) (op : MeshOp) : Option TreeMeshState :=
  match op with
  | .refinePoints _ _ =>
      if m.finalized then none
      else some ⟨m.refinements ++ [op], m.finalized⟩
  | .refineSurface _ _ =>
      if m.finalized then none
      else some ⟨m.refinements ++ [op], m.finalized⟩
  | .finalizeMesh =>
      if m.finalized then none else some ⟨m.refinements, true⟩

def TreeMesh_run : TreeMeshState → List MeshOp → Option TreeMeshState
  | m, [] => some m
  | m, op :: ops => (TreeMesh_step m op).bind (fun m2 => TreeMesh_run m2 ops)

/-- The fresh tree mesh right after `TreeMesh([hx, hy], origin="CN")`. -/
def initial_mesh : TreeMeshState := ⟨[], false⟩

/-- The mesh operations issued by the notebook, in notebook order. -/
def notebook_mesh_ops (electrodes topo : List (ℚ × ℚ)) : List MeshOp :=
  [ MeshOp.refinePoints electrodes electrode_padding_cells_by_level,
    MeshOp.refineSurface (surface_refine_window topo) surface_padding_cells_by_level,
    MeshOp.finalizeMesh ]

/-! ## Survey data model and the downstream pipeline stages

The survey container and the stages the notebook delegates to SimPEG /
discretize (`active_from_xyz`, the model build, `dpred`,
`drape_electrodes_on_topography`) are modelled from the design document:
the notebook cells invoking them are blank exercise cells and the library
code is not part of this repository. -/

/-- A source: its current-electrode locations (two for dipole
configurations, one for pole) and its receivers, each a list of
potential-electrode locations. -/
structure DCSource where
  electrodes : List (ℚ × ℚ)
  receivers : List (List (ℚ × ℚ))
deriving DecidableEq

/-- The survey container: the list of all sources. -/
structure DCSurvey where
  sources : List DCSource
deriving DecidableEq

/-- Total measurement count: one measurement per receiver, over all
sources. -/
def DCSurvey.nD (s : DCSurvey) : ℕ :=
  (s.sources.map (fun src => src.receivers.length)).sum

/-- The measurements in survey order: each source paired with each of its
receivers. -/
def DCSurvey.measurements (s : DCSurvey) : List (DCSource × List (ℚ × ℚ)) :=
  s.sources.flatMap (fun src => src.receivers.map (fun r => (src, r)))

/-- All electrode locations appearing in a source (current electrodes and
receiver electrodes). -/
def DCSource.allElectrodes (src : DCSource) : List (ℚ × ℚ) :=
  src.electrodes ++ src.receivers.flatten

/-- All electrode locations appearing in the survey. -/
def DCSurvey.allElectrodes (s : DCSurvey) : List (ℚ × ℚ) :=
  s.sources.flatMap DCSource.allElectrodes

/-- Modelled from the spec: `active_from_xyz` (external discretize utility;
the notebook cell calling it is a blank exercise cell) returns a boolean
mask with one entry per mesh cell, true iff the cell center lies on or
below the topographic surface. -/
def active_from_xyz (cellCenters : List (ℚ × ℚ)) (topoElev : ℚ → ℚ) : List Bool :=
  cellCenters.map (fun c => decide (c.2 ≤ topoElev c.1))

/-- Modelled from the spec: the resistivity model (a blank exercise cell)
assigns one value — the geometric-region evaluation `ρ` at the cell
center — per active cell, in mesh-cell order. -/
def build_resistivity_model (cellCenters : List (ℚ × ℚ)) (mask : List Bool)
    (ρ : ℚ × ℚ → ℚ) : List ℚ :=
  ((cellCenters.zip mask).filter (fun p => p.2)).map (fun p => ρ p.1)

/-- Modelled from the spec: the external simulation's `dpred` produces one
predicted datum per survey measurement, in survey order; the datum itself
(the PDE solve) is out of scope and is the parameter `f`. -/
def dpred (f : DCSource × List (ℚ × ℚ) → ℚ) (s : DCSurvey) : List ℚ :=
  (s.measurements).map f

/-- Squared distance between two points. -/
def dist2 (p q : ℚ × ℚ) : ℚ :=
  (p.1 - q.1) ^ 2 + (p.2 - q.2) ^ 2

/-- Nearest node of a (nonempty) node list to a point; the point itself
when there is no node. -/
def nearest_node (nodes : List (ℚ × ℚ)) (p : ℚ × ℚ) : ℚ × ℚ :=
  match nodes with
  | [] => p
  | n :: rest =>
      rest.foldl (fun best q => if dist2 q p < dist2 best p then q else best) n

/-- Modelled from the spec: `drape_electrodes_on_topography` (a blank
exercise cell calling the external SimPEG method) rewrites every electrode
coordinate of every source and receiver to the nearest discrete surface
node. -/
def drape_electrodes (surfaceNodes : List (ℚ × ℚ)) (s : DCSurvey) : DCSurvey :=
  ⟨s.sources.map (fun src =>
    ⟨src.electrodes.map (nearest_node surfaceNodes),
     src.receivers.map (fun r => r.map (nearest_node surfaceNodes))⟩)⟩

/-- Rectangular mesh domain bounds. -/
structure MeshBounds where
  xmin : ℚ
  xmax : ℚ
  ymin : ℚ
  ymax : ℚ
deriving DecidableEq

/-- A point lies within the mesh domain bounds. -/
def MeshBounds.contains (b : MeshBounds) (p : ℚ × ℚ) : Prop :=
  b.xmin ≤ p.1 ∧ p.1 ≤ b.xmax ∧ b.ymin ≤ p.2 ∧ p.2 ≤ b.ymax

/-- A one-source, one-receiver survey used to instantiate the pipeline
theorems. -/
def demo_survey : DCSurvey :=
  ⟨[⟨[((0 : ℚ), (0 : ℚ))], [[((1 : ℚ), (0 : ℚ))]]⟩]⟩

/-! ## Mappings (notebook cells: `maps.InjectActiveCells`, `plotting_map`)

`maps.InjectActiveCells(mesh, active_cells, fill)` is an external SimPEG
map; its semantics are modelled from the design document: place the
active-cell values into a full-mesh vector in order and put the fill value
at every inactive cell. -/

/-- Modelled from the spec: `maps.InjectActiveCells` — walk the mask in
mesh-cell order, consuming the next model value at an active cell and
emitting the fill value at an inactive cell. -/
def injectActiveCells {α : Type} : List Bool → α → List α → List α
  | [], _, _ => []
  | true :: mask, fill, v :: model => v :: injectActiveCells mask fill model
  | true :: _, _, [] => []
  | false :: mask, fill, model => fill :: injectActiveCells mask fill model

/-- The entries of `xs` at the positions where `mask` is true, in order. -/
def maskFilter {α : Type} (mask : List Bool) (xs : List α) : List α :=
  (mask.zip xs).filterMap (fun p => if p.1 then some p.2 else none)

/-- The fixed air-resistivity constant of the notebook's mapping exercise:
`1e8` Ω·m. -/
def air_resistivity : ℚ := 10 ^ 8

/-- Modelled from the spec: the composed simulation mapping of the mapping
exercise cell — the optional log→linear transform `t` applied to the
active-cell vector, then `maps.InjectActiveCells(mesh, active_cells, 1e8)`
filling every inactive (air) cell with the fixed constant. -/
def resistivity_map (t : ℚ → ℚ) (mask : List Bool) (m : List ℚ) : List ℚ :=
  injectActiveCells mask air_resistivity (m.map t)

/-- A float-valued cell entry: NaN or a numeric value.  NaN is modelled
structurally: `nan` differs from every `val q`, matching IEEE NaN's
inequality with every number. -/
inductive FloatVal where
  | nan : FloatVal
  | val : ℚ → FloatVal
deriving DecidableEq

/-- The notebook's visualization mapping
`plotting_map = maps.InjectActiveCells(mesh, active_cells, np.nan)`. -/
def plotting_map (mask : List Bool) (m : List ℚ) : List FloatVal :=
  injectActiveCells mask FloatVal.nan (m.map FloatVal.val)

/-- The simulation mapping (`InjectActiveCells` with fill `1e8`, identity
transform) with its outputs viewed as float values, for entrywise
comparison with `plotting_map`. -/
def simulation_map_vals (mask : List Bool) (m : List ℚ) : List FloatVal :=
  injectActiveCells mask (FloatVal.val air_resistivity) (m.map FloatVal.val)

/-! ## Topography and survey builders

Both walk a line at uniform spacing.  The topography cell and the
`generate_dcip_sources_line` call are blank exercise cells delegating to
numpy / SimPEG, so both builders are modelled from the design document. -/

/-- Uniform samples `x1, x1 + h, …` covering `[x1, x2]`:
`⌊(x2 − x1)/h⌋ + 1` stations. -/
def uniform_samples (x1 x2 h : ℚ) : List ℚ :=
  (List.range (⌊(x2 - x1) / h⌋.toNat + 1)).map (fun k : ℕ => x1 + (k : ℚ) * h)

/-- Modelled from the spec: the Topography Builder (the notebook's blank
exercise cell defining `topo_2d` over x ∈ (−300, 300) at 1 m spacing with
y = 4 + 4·tanh(x/100)): (x, elevation) pairs sampled at uniform spacing
over the x-range inclusive of both endpoints, with the elevation function
`elev` abstract (the notebook's curve uses transcendental `tanh`). -/
def topo_2d (x1 x2 h : ℚ) (elev : ℚ → ℚ) : List (ℚ × ℚ) :=
  (uniform_samples x1 x2 h).map (fun x => (x, elev x))

/-- Modelled from the spec: `generate_dcip_sources_line` (external SimPEG
utility, called from a blank exercise cell) for the dipole-dipole pattern:
one source per station with current electrodes at `(x, x + h)`, and up to
`nrx` receiver dipoles `(x + (j+2)h, x + (j+3)h)` walking outward, truncated
to electrode positions not beyond the line's far end `x2`; every electrode's
elevation is interpolated from the topography (`elev`). -/
def generate_dcip_sources_line (x1 x2 h : ℚ) (nrx : ℕ) (elev : ℚ → ℚ) :
    DCSurvey :=
  ⟨(uniform_samples x1 x2 h).map (fun xa =>
    ⟨[(xa, elev xa), (xa + h, elev (xa + h))],
     ((List.range nrx).filter (fun j : ℕ => xa + ((j : ℚ) + 3) * h ≤ x2)).map
       (fun j : ℕ => [(xa + ((j : ℚ) + 2) * h, elev (xa + ((j : ℚ) + 2) * h)),
                  (xa + ((j : ℚ) + 3) * h, elev (xa + ((j : ℚ) + 3) * h))])⟩)⟩

/-! ## Survey builder error handling and post-processing -/

/-- Modelled from the spec: the fixed enumerated set of electrode
configuration names the survey builder recognizes. -/
def recognized_configurations : List String :=
  ["dipole-dipole", "pole-dipole", "pole-pole"]

/-- Modelled from the spec: the survey builder's failure mode for a
configuration name outside the recognized set. -/
inductive SurveyError where
  | unsupportedConfiguration
deriving DecidableEq

/-- Modelled from the spec: the survey builder checks the configuration
name against the recognized set and fails with `UnsupportedConfiguration`
otherwise.  (The per-configuration electrode patterns differ only in
current/potential electrode counts, which is irrelevant to the error
contract; the dipole-dipole line generator stands for the recognized
names.) -/
def survey_builder (config : String) (x1 x2 h : ℚ) (nrx : ℕ)
    (elev : ℚ → ℚ) : Except SurveyError DCSurvey :=
  if config ∈ recognized_configurations then
    Except.ok (generate_dcip_sources_line x1 x2 h nrx elev)
  else
    Except.error SurveyError.unsupportedConfiguration

/-- Modelled from the spec: `apparent_resistivity_from_voltage` (external
SimPEG utility) divides each predicted normalized voltage by the
per-measurement geometric factor; the factor's formula, derived from the
electrode geometry, is the parameter `geom`. -/
def apparent_resistivity_from_voltage
    (geom : DCSource × List (ℚ × ℚ) → ℚ) (s : DCSurvey) (volts : List ℚ) :
    List ℚ :=
  List.zipWith (fun meas v => v / geom meas) s.measurements volts

/-- The notebook's post-processing cell: when the data type is `"volt"`,
convert the predicted data to apparent resistivities; otherwise take a copy
of the predicted data (`dpred.copy()`, identity in value semantics). -/
def post_process (geom : DCSource × List (ℚ × ℚ) → ℚ) (data_type : String)
    (s : DCSurvey) (d : List ℚ) : List ℚ :=
  if data_type = "volt" then apparent_resistivity_from_voltage geom s d
  else d

/-- The post-processing step threaded through an ambient state `st`, to
express the absence of hidden state: the call's output pairs the value of
`post_process` — a function of the explicit inputs only — with the
untouched state. -/
def post_process_run {σ : Type} (st : σ)
    (geom : DCSource × List (ℚ × ℚ) → ℚ) (data_type : String) (s : DCSurvey)
    (d : List ℚ) : List ℚ × σ :=
  (post_process geom data_type s d, st)

theorem rlog2aux_spec (fuel : ℕ) (s : ℚ) (hs : 0 ≤ s) (hf : s < 2 * 4 ^ fuel) :
    s < 2 * 4 ^ rlog2aux fuel s ∧
      (rlog2aux fuel s = 0 ∨ (4 : ℚ) ^ rlog2aux fuel s ≤ 2 * s) := by
  induction fuel generalizing s with
  | zero =>
    refine ⟨by simpa [rlog2aux] using hf, Or.inl rfl⟩
  | succ n ih =>
    by_cases h2 : s < 2
    · have he : rlog2aux (n + 1) s = 0 := by simp [rlog2aux, h2]
      rw [he]
      exact ⟨by simpa using h2, Or.inl rfl⟩
    · push_neg at h2
      have hs4 : (0 : ℚ) ≤ s / 4 := by positivity
      have hf4 : s / 4 < 2 * 4 ^ n := by
        rw [div_lt_iff₀ (by norm_num : (0:ℚ) < 4)]
        calc s < 2 * 4 ^ (n + 1) := hf
          _ = 2 * 4 ^ n * 4 := by ring
      obtain ⟨hup, hlo⟩ := ih (s / 4) hs4 hf4
      simp only [rlog2aux, if_neg (not_lt.mpr h2)]
      constructor
      · have : s / 4 < 2 * 4 ^ rlog2aux n (s / 4) := hup
        rw [div_lt_iff₀ (by norm_num : (0:ℚ) < 4)] at this
        calc s < 2 * 4 ^ rlog2aux n (s / 4) * 4 := this
          _ = 2 * 4 ^ (rlog2aux n (s / 4) + 1) := by ring
      · right
        rcases hlo with h0 | hle
        · rw [h0]
          calc (4 : ℚ) ^ (0 + 1) = 4 := by norm_num
            _ ≤ 2 * s := by linarith
        · have : (4 : ℚ) ^ rlog2aux n (s / 4) ≤ 2 * (s / 4) := hle
          calc (4 : ℚ) ^ (rlog2aux n (s / 4) + 1)
              = 4 ^ rlog2aux n (s / 4) * 4 := by ring
            _ ≤ 2 * (s / 4) * 4 := by linarith
            _ = 2 * s := by ring

theorem rat_le_num (s : ℚ) (hs : 0 ≤ s) : s ≤ (s.num.natAbs : ℚ) := by
  have hnum : (0 : ℤ) ≤ s.num := Rat.num_nonneg.mpr hs
  have habs : ((s.num.natAbs : ℚ)) = ((s.num : ℚ)) := by
    rw [Int.cast_natAbs]
    exact_mod_cast abs_of_nonneg hnum
  rw [habs]
  have hden : (1 : ℚ) ≤ (s.den : ℚ) := by
    exact_mod_cast Nat.one_le_iff_ne_zero.mpr s.den_nz
  have hnq : (0 : ℚ) ≤ (s.num : ℚ) := by exact_mod_cast hnum
  calc s = (s.num : ℚ) / (s.den : ℚ) := (Rat.num_div_den s).symm
    _ ≤ (s.num : ℚ) := div_le_self hnq hden

theorem fuel_sufficient (s : ℚ) (hs : 0 ≤ s) : s < 2 * 4 ^ s.num.natAbs := by
  have h1 : s ≤ (s.num.natAbs : ℚ) := rat_le_num s hs
  have h2 : (s.num.natAbs : ℚ) < 2 ^ s.num.natAbs := by
    exact_mod_cast Nat.lt_two_pow s.num.natAbs
  have h3 : (2 : ℚ) ^ s.num.natAbs ≤ 4 ^ s.num.natAbs := by
    apply pow_le_pow_left₀ (by norm_num) (by norm_num)
  have h4 : (0 : ℚ) < 4 ^ s.num.natAbs := by positivity
  linarith

/-- Characterization of `rlog2`: for `r ≥ 1` the notebook's exponent `k`
satisfies `r ^ 2 < 2 * 4 ^ k` and (unless `k = 0`) `4 ^ k ≤ 2 * r ^ 2`,
i.e. `k` is the nearest integer to `log2 r`. -/
theorem rlog2_spec (r : ℚ) (hr : 1 ≤ r) :
    r * r < 2 * 4 ^ rlog2 r ∧
      (rlog2 r = 0 ∨ (4 : ℚ) ^ rlog2 r ≤ 2 * (r * r)) := by
  have hs : (0 : ℚ) ≤ r * r := by positivity
  exact rlog2aux_spec _ _ hs (fuel_sufficient _ hs)

/-- C1 counterexample: for minimum cell width `dh = 1` and requested domain
width `5`, the notebook's sizing `2 ** int(np.round(np.log(5/1)/np.log(2)))`
yields `4` base cells, and `1 * 4 < 5`, so the chosen count does NOT satisfy
`dh * count ≥ requested width` — while the larger power of two `8` does.
Hence the count is not "the smallest power-of-two count such that
`dh * count ≥` the requested domain width". -/
theorem nbcells_round_undershoots :
    nbcells 1 5 = 4 ∧ ¬ ((5 : ℚ) ≤ 1 * ((nbcells 1 5 : ℕ) : ℚ)) ∧
      (5 : ℚ) ≤ 1 * (((2 : ℕ) ^ 3 : ℕ) : ℚ) := by
  refine ⟨?_, ?_, by norm_num⟩
  · norm_num [nbcells, rlog2, rlog2aux]
  · norm_num [nbcells, rlog2, rlog2aux]

/-- C1 (amended): for `0 < dh ≤ domWidth`, the number of base cells along an
axis is the power of two nearest to `domWidth / dh` in log scale — the count
`c` chosen by `nbcells` is a power of two satisfying
`(domWidth/dh)^2 < 2 * c^2` and `c^2 ≤ 2 * (domWidth/dh)^2` (so `dh * c` can
undershoot the requested width by up to a factor `√2`, and it is not in
general the smallest power of two covering the domain). -/
theorem nbcells_nearest_pow2 (dh dw : ℚ) (h0 : 0 < dh) (hle : dh ≤ dw) :
    ∃ k : ℕ, nbcells dh dw = 2 ^ k ∧
      (dw / dh) * (dw / dh) < 2 * ((nbcells dh dw : ℕ) : ℚ) ^ 2 ∧
      ((nbcells dh dw : ℕ) : ℚ) ^ 2 ≤ 2 * ((dw / dh) * (dw / dh)) := by
  have hr : (1 : ℚ) ≤ dw / dh := (one_le_div₀ h0).mpr hle
  obtain ⟨hup, hlo⟩ := rlog2_spec (dw / dh) hr
  refine ⟨rlog2 (dw / dh), rfl, ?_, ?_⟩
  · have hc : ((nbcells dh dw : ℕ) : ℚ) ^ 2 = 4 ^ rlog2 (dw / dh) := by
      simp only [nbcells]
      push_cast
      rw [← pow_mul, mul_comm (rlog2 (dw / dh)) 2, pow_mul]
      norm_num
    rw [hc]
    exact hup
  · have hc : ((nbcells dh dw : ℕ) : ℚ) ^ 2 = 4 ^ rlog2 (dw / dh) := by
      simp only [nbcells]
      push_cast
      rw [← pow_mul, mul_comm (rlog2 (dw / dh)) 2, pow_mul]
      norm_num
    rw [hc]
    rcases hlo with h0' | hle'
    · rw [h0']
      nlinarith
    · exact hle'

/-- Witness for `nbcells_nearest_pow2` at `dh = 1`, `domWidth = 4`. -/
theorem nbcells_nearest_pow2_witness :
    (0 : ℚ) < 1 ∧ (1 : ℚ) ≤ 4 ∧
      (∃ k : ℕ, nbcells 1 4 = 2 ^ k ∧
        ((4 : ℚ) / 1) * ((4 : ℚ) / 1) < 2 * ((nbcells 1 4 : ℕ) : ℚ) ^ 2 ∧
        ((nbcells 1 4 : ℕ) : ℚ) ^ 2 ≤ 2 * (((4 : ℚ) / 1) * ((4 : ℚ) / 1))) :=
  ⟨by norm_num, by norm_num, nbcells_nearest_pow2 1 4 (by norm_num) (by norm_num)⟩

/-- C2 counterexample: the near-topography padding schedule `[0, 0, 4, 4]`
used by `refine_surface` is NOT decreasing from the finest level onward
(its third entry `4` exceeds its second entry `0`), so it is false that each
of the two refinement passes uses a decreasing per-level padding schedule. -/
theorem surface_padding_not_decreasing :
    surface_padding_cells_by_level = [0, 0, 4, 4] ∧
      ¬ List.Chain' (fun a b => b ≤ a) surface_padding_cells_by_level := by
  constructor
  · rfl
  · intro h
    simp [surface_padding_cells_by_level, List.chain'_cons] at h

/-- C2 (amended): the near-electrode pass's padding schedule
`[10, 8, 8, 8, 4, 4]` is non-increasing from the finest level onward, the
near-topography pass's schedule `[0, 0, 4, 4]` is non-decreasing from the
finest level onward (coarser levels get at least as much padding), and the
surface pass is restricted to a bounded horizontal window: its input is
exactly the topography points with `|x| < 150`. -/
theorem refinement_schedules_spec (topo : List (ℚ × ℚ)) :
    List.Chain' (fun a b => b ≤ a) electrode_padding_cells_by_level ∧
      List.Chain' (fun a b => a ≤ b) surface_padding_cells_by_level ∧
      (∀ p ∈ surface_refine_window topo, |p.1| < 150 ∧ p ∈ topo) ∧
      (∀ p ∈ topo, |p.1| < 150 → p ∈ surface_refine_window topo) := by
  refine ⟨?_, ?_, ?_, ?_⟩
  · simp [electrode_padding_cells_by_level, List.chain'_cons]
  · simp [surface_padding_cells_by_level, List.chain'_cons]
  · intro p hp
    rw [surface_refine_window, List.mem_filter] at hp
    exact ⟨by simpa using hp.2, hp.1⟩
  · intro p hp hlt
    rw [surface_refine_window, List.mem_filter]
    exact ⟨hp, by simpa using hlt⟩

/-- Witness for `refinement_schedules_spec` on the two-point topography
`[(0, 4), (200, 8)]`: the point `(0, 4)` is inside the window and is kept,
and the window membership test at `(0, 4)` holds. -/
theorem refinement_schedules_spec_witness :
    |((0 : ℚ), (4 : ℚ)).1| < 150 ∧
      ((0 : ℚ), (4 : ℚ)) ∈ [((0 : ℚ), (4 : ℚ)), ((200 : ℚ), (8 : ℚ))] ∧
      ((0 : ℚ), (4 : ℚ)) ∈
        surface_refine_window [((0 : ℚ), (4 : ℚ)), ((200 : ℚ), (8 : ℚ))] := by
  have h := (refinement_schedules_spec
    [((0 : ℚ), (4 : ℚ)), ((200 : ℚ), (8 : ℚ))]).2.2.2
    ((0 : ℚ), (4 : ℚ)) (by simp) (by norm_num)
  exact ⟨by norm_num, by simp, h⟩

/-- C3: in the notebook's run, every refinement precedes finalize (the
operation list is refinement-only operations followed by a final
`finalizeMesh`), finalize appears exactly once, the run succeeds, and from
the resulting finalized state no further operation is accepted — in
particular no refinement is performed after finalize and the recorded
refinements (the cell geometry) never change. -/
theorem mesh_lifecycle_ordering (electrodes topo : List (ℚ × ℚ)) :
    (∃ pre, notebook_mesh_ops electrodes topo = pre ++ [MeshOp.finalizeMesh] ∧
        ∀ op ∈ pre, op.isFinalize = false) ∧
      (notebook_mesh_ops electrodes topo).countP MeshOp.isFinalize = 1 ∧
      (∃ mf, TreeMesh_run initial_mesh (notebook_mesh_ops electrodes topo) = some mf ∧
        mf.finalized = true ∧
        mf.refinements =
          [ MeshOp.refinePoints electrodes electrode_padding_cells_by_level,
            MeshOp.refineSurface (surface_refine_window topo)
              surface_padding_cells_by_level ] ∧
        ∀ op, TreeMesh_step mf op = none) := by
  refine ⟨?_, ?_, ?_⟩
  · refine ⟨[ MeshOp.refinePoints electrodes electrode_padding_cells_by_level,
      MeshOp.refineSurface (surface_refine_window topo)
        surface_padding_cells_by_level ], rfl, ?_⟩
    intro op hop
    rcases List.mem_cons.mp hop with h | h
    · rw [h]; rfl
    · rw [List.mem_singleton.mp h]; rfl
  · rfl
  · refine ⟨⟨[ MeshOp.refinePoints electrodes electrode_padding_cells_by_level,
      MeshOp.refineSurface (surface_refine_window topo)
        surface_padding_cells_by_level ], true⟩, rfl, rfl, rfl, ?_⟩
    intro op
    cases op <;> rfl

/-- Witness for `mesh_lifecycle_ordering` on a one-electrode, one-point
topography instance: the run reaches a finalized state that rejects a
further refinement call. -/
theorem mesh_lifecycle_ordering_witness :
    ∃ mf, TreeMesh_run initial_mesh
        (notebook_mesh_ops [((0 : ℚ), (0 : ℚ))] [((0 : ℚ), (4 : ℚ))]) = some mf ∧
      mf.finalized = true ∧
      mf.refinements =
        [ MeshOp.refinePoints [((0 : ℚ), (0 : ℚ))] electrode_padding_cells_by_level,
          MeshOp.refineSurface (surface_refine_window [((0 : ℚ), (4 : ℚ))])
            surface_padding_cells_by_level ] ∧
      ∀ op, TreeMesh_step mf op = none :=
  (mesh_lifecycle_ordering [((0 : ℚ), (0 : ℚ))] [((0 : ℚ), (4 : ℚ))]).2.2

theorem nearest_aux_mem (p : ℚ × ℚ) (rest : List (ℚ × ℚ)) :
    ∀ n : ℚ × ℚ,
      rest.foldl (fun best q => if dist2 q p < dist2 best p then q else best) n
        ∈ n :: rest := by
  induction rest with
  | nil => intro n; simp
  | cons q rest ih =>
    intro n
    simp only [List.foldl]
    have h := ih (if dist2 q p < dist2 n p then q else n)
    rcases List.mem_cons.mp h with h1 | h1
    · by_cases hc : dist2 q p < dist2 n p
      · rw [h1, if_pos hc]
        simp
      · rw [h1, if_neg hc]
        simp
    · exact List.mem_cons_of_mem _ (List.mem_cons_of_mem _ h1)

theorem nearest_node_mem (nodes : List (ℚ × ℚ)) (p : ℚ × ℚ)
    (hne : nodes ≠ []) : nearest_node nodes p ∈ nodes := by
  match nodes with
  | [] => exact absurd rfl hne
  | n :: rest => exact nearest_aux_mem p rest n

theorem build_model_length (cellCenters : List (ℚ × ℚ)) (mask : List Bool)
    (ρ : ℚ × ℚ → ℚ) (h : cellCenters.length = mask.length) :
    (build_resistivity_model cellCenters mask ρ).length = mask.countP id := by
  induction mask generalizing cellCenters with
  | nil =>
    have : cellCenters = [] := List.length_eq_zero.mp h
    simp [build_resistivity_model, this]
  | cons b mask ih =>
    match cellCenters with
    | [] => exact absurd h (by simp)
    | c :: cs =>
      have hlen : cs.length = mask.length := by simpa using h
      have hrec := ih cs hlen
      cases b with
      | true =>
        simpa [build_resistivity_model, List.countP_cons] using hrec
      | false =>
        simpa [build_resistivity_model, List.countP_cons] using hrec

theorem measurements_length (s : DCSurvey) :
    s.measurements.length = s.nD := by
  unfold DCSurvey.measurements DCSurvey.nD
  induction s.sources with
  | nil => rfl
  | cons src rest ih => simp [List.flatMap_cons, ih]

theorem drape_mem_nodes (nodes : List (ℚ × ℚ)) (s : DCSurvey)
    (hne : nodes ≠ []) :
    ∀ p ∈ (drape_electrodes nodes s).allElectrodes, p ∈ nodes := by
  intro p hp
  unfold DCSurvey.allElectrodes drape_electrodes at hp
  simp only [List.mem_flatMap, List.mem_map] at hp
  obtain ⟨src', ⟨src, hsrc, hmap⟩, hp'⟩ := hp
  subst hmap
  unfold DCSource.allElectrodes at hp'
  rcases List.mem_append.mp hp' with h | h
  · obtain ⟨q, hq, hq2⟩ := List.mem_map.mp h
    rw [← hq2]
    exact nearest_node_mem nodes q hne
  · obtain ⟨r', hr', hpr⟩ := List.mem_flatten.mp h
    obtain ⟨r, hr, hmap⟩ := List.mem_map.mp hr'
    rw [← hmap] at hpr
    obtain ⟨q, hq, hq2⟩ := List.mem_map.mp hpr
    rw [← hq2]
    exact nearest_node_mem nodes q hne

/-- C4: pipeline length invariants.  (1) The active-cell mask has one entry
per mesh cell; (2) the resistivity model vector has one entry per true
entry of the mask; (3) the predicted-data vector has one entry per survey
measurement; (4) after draping onto a nonempty set of surface nodes that
all lie within the mesh domain bounds, every electrode coordinate of the
survey lies within the mesh domain bounds. -/
theorem pipeline_length_invariants :
    (∀ (centers : List (ℚ × ℚ)) (topoElev : ℚ → ℚ),
        (active_from_xyz centers topoElev).length = centers.length) ∧
      (∀ (centers : List (ℚ × ℚ)) (mask : List Bool) (ρ : ℚ × ℚ → ℚ),
        centers.length = mask.length →
          (build_resistivity_model centers mask ρ).length = mask.countP id) ∧
      (∀ (f : DCSource × List (ℚ × ℚ) → ℚ) (s : DCSurvey),
        (dpred f s).length = s.nD) ∧
      (∀ (nodes : List (ℚ × ℚ)) (b : MeshBounds) (s : DCSurvey),
        nodes ≠ [] → (∀ n ∈ nodes, b.contains n) →
          ∀ p ∈ (drape_electrodes nodes s).allElectrodes, b.contains p) := by
  refine ⟨?_, ?_, ?_, ?_⟩
  · intro centers topoElev
    simp [active_from_xyz]
  · intro centers mask ρ h
    exact build_model_length centers mask ρ h
  · intro f s
    rw [dpred, List.length_map]
    exact measurements_length s
  · intro nodes b s hne hin p hp
    exact hin p (drape_mem_nodes nodes s hne p hp)

/-- Witness for `pipeline_length_invariants` on concrete one-cell,
one-source instances: the mask, model and data lengths evaluate as claimed
and the draped electrode `(0, 0) ↦ (0, 4)` lies within the bounds
`[-1, 1] × [0, 5]`. -/
theorem pipeline_length_invariants_witness :
    (active_from_xyz [((0 : ℚ), (0 : ℚ))] (fun _ => 4)).length = 1 ∧
      (build_resistivity_model [((0 : ℚ), (0 : ℚ))] [true]
        (fun _ => 100)).length = List.countP id [true] ∧
      (dpred (fun _ => 1) demo_survey).length = demo_survey.nD ∧
      MeshBounds.contains ⟨-1, 1, 0, 5⟩ ((0 : ℚ), (4 : ℚ)) := by
  refine ⟨?_, ?_, ?_, ?_⟩
  · simpa using pipeline_length_invariants.1 [((0 : ℚ), (0 : ℚ))] (fun _ => 4)
  · exact pipeline_length_invariants.2.1 [((0 : ℚ), (0 : ℚ))] [true]
      (fun _ => 100) (by simp)
  · exact pipeline_length_invariants.2.2.1 (fun _ => 1) demo_survey
  · refine pipeline_length_invariants.2.2.2 [((0 : ℚ), (4 : ℚ))] ⟨-1, 1, 0, 5⟩
      demo_survey (by simp) ?_ ((0 : ℚ), (4 : ℚ)) ?_
    · intro n hn
      rw [List.mem_singleton.mp hn]
      refine ⟨by norm_num, by norm_num, by norm_num, by norm_num⟩
    · simp [drape_electrodes, demo_survey, DCSurvey.allElectrodes,
        DCSource.allElectrodes, nearest_node]

theorem inject_length {α : Type} (mask : List Bool) (fill : α) (model : List α)
    (h : model.length = mask.countP id) :
    (injectActiveCells mask fill model).length = mask.length := by
  induction mask generalizing model with
  | nil => simp [injectActiveCells]
  | cons b mask ih =>
    cases b with
    | true =>
      match model with
      | [] => simp [List.countP_cons] at h
      | v :: model =>
        have h2 : model.length = mask.countP id := by
          simpa [List.countP_cons] using h
        simp [injectActiveCells, ih model h2]
    | false =>
      have h2 : model.length = mask.countP id := by
        simpa [List.countP_cons] using h
      simp [injectActiveCells, ih model h2]

theorem inject_maskFilter {α : Type} (mask : List Bool) (fill : α)
    (model : List α) (h : model.length = mask.countP id) :
    maskFilter mask (injectActiveCells mask fill model) = model := by
  induction mask generalizing model with
  | nil =>
    have hm : model = [] := List.length_eq_zero.mp (by simpa using h)
    simp [maskFilter, injectActiveCells, hm]
  | cons b mask ih =>
    cases b with
    | true =>
      match model with
      | [] => simp [List.countP_cons] at h
      | v :: model =>
        have h2 : model.length = mask.countP id := by
          simpa [List.countP_cons] using h
        simp [injectActiveCells, maskFilter, List.zip_cons_cons,
          List.filterMap_cons] at ih ⊢
        exact ih model h2
    | false =>
      have h2 : model.length = mask.countP id := by
        simpa [List.countP_cons] using h
      simp [injectActiveCells, maskFilter, List.zip_cons_cons,
        List.filterMap_cons] at ih ⊢
      exact ih model h2

theorem inject_inactive {α : Type} (mask : List Bool) (fill : α)
    (model : List α) (h : model.length = mask.countP id) :
    ∀ k : ℕ, mask[k]? = some false →
      (injectActiveCells mask fill model)[k]? = some fill := by
  induction mask generalizing model with
  | nil => intro k hk; simp at hk
  | cons b mask ih =>
    cases b with
    | true =>
      match model with
      | [] => simp [List.countP_cons] at h
      | v :: model =>
        have h2 : model.length = mask.countP id := by
          simpa [List.countP_cons] using h
        intro k hk
        match k with
        | 0 => simp at hk
        | k + 1 =>
          have hk2 : mask[k]? = some false := by simpa using hk
          simpa [injectActiveCells] using ih model h2 k hk2
    | false =>
      have h2 : model.length = mask.countP id := by
        simpa [List.countP_cons] using h
      intro k hk
      match k with
      | 0 => simp [injectActiveCells]
      | k + 1 =>
        have hk2 : mask[k]? = some false := by simpa using hk
        simpa [injectActiveCells] using ih model h2 k hk2

theorem inject_get_ne_iff {α : Type} (f1 f2 : α) (hne : f1 ≠ f2)
    (mask : List Bool) (model : List α) (h : model.length = mask.countP id) :
    ∀ k : ℕ, k < mask.length →
      ((injectActiveCells mask f1 model)[k]? ≠
          (injectActiveCells mask f2 model)[k]? ↔
        mask[k]? = some false) := by
  induction mask generalizing model with
  | nil => intro k hk; simp at hk
  | cons b mask ih =>
    cases b with
    | true =>
      match model with
      | [] => simp [List.countP_cons] at h
      | v :: model =>
        have h2 : model.length = mask.countP id := by
          simpa [List.countP_cons] using h
        intro k hk
        match k with
        | 0 => simp [injectActiveCells]
        | k + 1 =>
          have hk2 : k < mask.length := by simpa using hk
          simpa [injectActiveCells] using ih model h2 k hk2
    | false =>
      have h2 : model.length = mask.countP id := by
        simpa [List.countP_cons] using h
      intro k hk
      match k with
      | 0 => simp [injectActiveCells, hne]
      | k + 1 =>
        have hk2 : k < mask.length := by simpa using hk
        simpa [injectActiveCells] using ih model h2 k hk2

/-- C5: mapping expansion.  For every active-cell vector of the correct
length, the composed mapping produces a full-mesh vector with one entry per
mesh cell; its entries at active cells are the transformed (`t`, e.g.
optional exponentiation) input values in order; and its entry at every
inactive cell is the fixed air constant `1e8`. -/
theorem resistivity_map_spec (t : ℚ → ℚ) (mask : List Bool) (m : List ℚ)
    (h : m.length = mask.countP id) :
    (resistivity_map t mask m).length = mask.length ∧
      maskFilter mask (resistivity_map t mask m) = m.map t ∧
      ∀ k : ℕ, mask[k]? = some false →
        (resistivity_map t mask m)[k]? = some ((10 : ℚ) ^ 8) := by
  have hl : (m.map t).length = mask.countP id := by simpa using h
  refine ⟨inject_length mask air_resistivity (m.map t) hl,
    inject_maskFilter mask air_resistivity (m.map t) hl, ?_⟩
  intro k hk
  simpa [air_resistivity] using
    inject_inactive mask air_resistivity (m.map t) hl k hk

/-- Witness for `resistivity_map_spec` with mask `[true, false]`, model
`[3]` and the identity transform: the air cell at index 1 gets `1e8`. -/
theorem resistivity_map_spec_witness :
    (resistivity_map id [true, false] [3]).length = [true, false].length ∧
      maskFilter [true, false] (resistivity_map id [true, false] [3]) =
        List.map id [3] ∧
      (resistivity_map id [true, false] [3])[1]? = some ((10 : ℚ) ^ 8) := by
  have h := resistivity_map_spec id [true, false] [3] (by rfl)
  exact ⟨h.1, h.2.1, h.2.2 1 (by rfl)⟩

/-- C10: the visualization mapping is built with fill value NaN: for every
active-cell vector of the correct length it yields a full-mesh vector equal
to the input on active cells (in order) and NaN on every inactive cell, and
its output disagrees with the `1e8`-filled simulation mapping's output at
exactly the inactive cells. -/
theorem plotting_map_vs_simulation_map (mask : List Bool) (m : List ℚ)
    (h : m.length = mask.countP id) :
    (plotting_map mask m).length = mask.length ∧
      maskFilter mask (plotting_map mask m) = m.map FloatVal.val ∧
      (∀ k : ℕ, mask[k]? = some false →
        (plotting_map mask m)[k]? = some FloatVal.nan) ∧
      ∀ k : ℕ, k < mask.length →
        ((plotting_map mask m)[k]? ≠ (simulation_map_vals mask m)[k]? ↔
          mask[k]? = some false) := by
  have hl : (m.map FloatVal.val).length = mask.countP id := by simpa using h
  exact ⟨inject_length mask FloatVal.nan (m.map FloatVal.val) hl,
    inject_maskFilter mask FloatVal.nan (m.map FloatVal.val) hl,
    fun k hk => inject_inactive mask FloatVal.nan (m.map FloatVal.val) hl k hk,
    inject_get_ne_iff FloatVal.nan (FloatVal.val air_resistivity)
      (fun hc => FloatVal.noConfusion hc) mask (m.map FloatVal.val) hl⟩

/-- Witness for `plotting_map_vs_simulation_map` with mask `[true, false]`
and model `[3]`: index 1 is inactive, carries NaN, and is exactly where the
two mappings disagree. -/
theorem plotting_map_vs_simulation_map_witness :
    (plotting_map [true, false] [3]).length = [true, false].length ∧
      maskFilter [true, false] (plotting_map [true, false] [3]) =
        List.map FloatVal.val [3] ∧
      (plotting_map [true, false] [3])[1]? = some FloatVal.nan ∧
      ((plotting_map [true, false] [3])[1]? ≠
          (simulation_map_vals [true, false] [3])[1]? ↔
        ([true, false] : List Bool)[1]? = some false) := by
  have h := plotting_map_vs_simulation_map [true, false] [3] (by rfl)
  exact ⟨h.1, h.2.1, h.2.2.1 1 (by rfl), h.2.2.2 1 (by norm_num)⟩

theorem uniform_floor (x1 x2 h : ℚ) (n : ℕ) (hpos : 0 < h)
    (hn : x2 - x1 = (n : ℚ) * h) : ⌊(x2 - x1) / h⌋.toNat = n := by
  rw [hn, mul_div_cancel_right₀ _ (ne_of_gt hpos)]
  simp

/-- C7: for every valid range (`x1 + n·h = x2` with `0 < h`), the
topography is the `n + 1` uniformly spaced samples `x1 + k·h`, each paired
with the elevation function evaluated there, inclusive of both endpoints. -/
theorem topo_2d_spec (x1 x2 h : ℚ) (elev : ℚ → ℚ) (n : ℕ) (hpos : 0 < h)
    (hn : x2 - x1 = (n : ℚ) * h) :
    (topo_2d x1 x2 h elev).length = n + 1 ∧
      (∀ k : ℕ, k ≤ n → (topo_2d x1 x2 h elev)[k]? =
        some (x1 + (k : ℚ) * h, elev (x1 + (k : ℚ) * h))) ∧
      (topo_2d x1 x2 h elev)[0]? = some (x1, elev x1) ∧
      (topo_2d x1 x2 h elev)[n]? = some (x2, elev x2) := by
  have hf := uniform_floor x1 x2 h n hpos hn
  have hidx : ∀ k : ℕ, k ≤ n → (topo_2d x1 x2 h elev)[k]? =
      some (x1 + (k : ℚ) * h, elev (x1 + (k : ℚ) * h)) := by
    intro k hk
    have hk2 : k < n + 1 := Nat.lt_succ_of_le hk
    simp [topo_2d, uniform_samples, hf, List.getElem?_map,
      List.getElem?_range, hk2]
  refine ⟨?_, hidx, ?_, ?_⟩
  · simp [topo_2d, uniform_samples, hf]
  · simpa using hidx 0 (Nat.zero_le n)
  · have hlast := hidx n le_rfl
    have hx : x1 + (n : ℚ) * h = x2 := by linarith
    rw [hlast, hx]

/-- Witness for `topo_2d_spec` at the notebook instance `x ∈ (−300, 300)`,
1 m spacing (so `n = 600` and `600/1 + 1 = 601` samples), with the identity
elevation standing in for the curve. -/
theorem topo_2d_spec_witness :
    (topo_2d (-300) 300 1 (fun x => x)).length = 601 ∧
      (topo_2d (-300) 300 1 (fun x => x))[0]? =
        some ((-300 : ℚ), (-300 : ℚ)) ∧
      (topo_2d (-300) 300 1 (fun x => x))[600]? =
        some ((300 : ℚ), (300 : ℚ)) := by
  have h := topo_2d_spec (-300) 300 1 (fun x => x) 600 (by norm_num)
    (by norm_num)
  exact ⟨h.1, by simpa using h.2.2.1, by simpa using h.2.2.2⟩

/-- C6: for end locations `[-65, 65]`, electrode spacing `5` and `15`
receivers per source, the dipole-dipole line has exactly `27` sources
(stations every 5 m from −65 to 65) and at most `27 × 15` measurements
(receivers are truncated at the end of the line). -/
theorem survey_line_counts (elev : ℚ → ℚ) :
    (generate_dcip_sources_line (-65) 65 5 15 elev).sources.length = 27 ∧
      (generate_dcip_sources_line (-65) 65 5 15 elev).nD ≤ 27 * 15 := by
  have hf : ⌊((65 : ℚ) + 65) / 5⌋.toNat = 26 := by
    have h1 : ⌊((65 : ℚ) + 65) / 5⌋ = 26 := by
      rw [Int.floor_eq_iff]
      constructor <;> norm_num
    rw [h1]
    rfl
  constructor
  · simp [generate_dcip_sources_line, uniform_samples, hf]
  · unfold DCSurvey.nD generate_dcip_sources_line
    rw [List.map_map]
    have hb : ∀ x ∈ (uniform_samples (-65) 65 5).map
        ((fun src => src.receivers.length) ∘ (fun xa =>
          (⟨[(xa, elev xa), (xa + 5, elev (xa + 5))],
            ((List.range 15).filter
              (fun j : ℕ => xa + ((j : ℚ) + 3) * 5 ≤ 65)).map
              (fun j : ℕ => [(xa + ((j : ℚ) + 2) * 5, elev (xa + ((j : ℚ) + 2) * 5)),
                (xa + ((j : ℚ) + 3) * 5, elev (xa + ((j : ℚ) + 3) * 5))])⟩ :
            DCSource))), x ≤ 15 := by
      intro x hx
      obtain ⟨xa, _, hxa⟩ := List.mem_map.mp hx
      rw [← hxa]
      simp only [Function.comp]
      calc (((List.range 15).filter
            (fun j : ℕ => xa + ((j : ℚ) + 3) * 5 ≤ 65)).map
            (fun j : ℕ => [(xa + ((j : ℚ) + 2) * 5, elev (xa + ((j : ℚ) + 2) * 5)),
              (xa + ((j : ℚ) + 3) * 5, elev (xa + ((j : ℚ) + 3) * 5))])).length
          = ((List.range 15).filter
            (fun j : ℕ => xa + ((j : ℚ) + 3) * 5 ≤ 65)).length := by
            rw [List.length_map]
        _ ≤ (List.range 15).length := List.length_filter_le _ _
        _ = 15 := List.length_range 15
    have hsum := List.sum_le_card_nsmul _ 15 hb
    rw [List.length_map] at hsum
    have hlen : (uniform_samples (-65) 65 5).length = 27 := by
      simp [uniform_samples, hf]
    rw [hlen] at hsum
    simpa using hsum

/-- C8: the survey builder fails with `UnsupportedConfiguration` exactly on
the configuration names outside the recognized set: every unrecognized name
produces that error and no recognized name does. -/
theorem survey_builder_config_errors (config : String) (x1 x2 h : ℚ)
    (nrx : ℕ) (elev : ℚ → ℚ) :
    (config ∉ recognized_configurations →
        survey_builder config x1 x2 h nrx elev =
          Except.error SurveyError.unsupportedConfiguration) ∧
      (config ∈ recognized_configurations →
        survey_builder config x1 x2 h nrx elev ≠
          Except.error SurveyError.unsupportedConfiguration) := by
  constructor
  · intro hnot
    simp [survey_builder, hnot]
  · intro hin hcontra
    simp [survey_builder, hin] at hcontra

/-- Witness for `survey_builder_config_errors`: "wenner" (unrecognized)
errors with `UnsupportedConfiguration` and "dipole-dipole" (recognized)
does not. -/
theorem survey_builder_config_errors_witness :
    survey_builder "wenner" (-65) 65 5 15 (fun _ => 0) =
        Except.error SurveyError.unsupportedConfiguration ∧
      survey_builder "dipole-dipole" (-65) 65 5 15 (fun _ => 0) ≠
        Except.error SurveyError.unsupportedConfiguration :=
  ⟨(survey_builder_config_errors "wenner" (-65) 65 5 15 (fun _ => 0)).1
      (by simp [recognized_configurations]),
    (survey_builder_config_errors "dipole-dipole" (-65) 65 5 15
      (fun _ => 0)).2 (by simp [recognized_configurations])⟩

/-- C9: apparent-resistivity post-processing is pure and deterministic: two
invocations from arbitrary (distinct) ambient states yield identical
outputs, the ambient state is returned unchanged, and the output is the
explicit function of the inputs given by the two dispatch branches of the
notebook's plotting cell (divide by the geometric factor when the data are
voltages, copy otherwise). -/
theorem post_process_pure {σ : Type} (st1 st2 : σ)
    (geom : DCSource × List (ℚ × ℚ) → ℚ) (data_type : String) (s : DCSurvey)
    (d : List ℚ) :
    (post_process_run st1 geom data_type s d).1 =
        (post_process_run st2 geom data_type s d).1 ∧
      (post_process_run st1 geom data_type s d).2 = st1 ∧
      (data_type = "volt" → post_process geom data_type s d =
        List.zipWith (fun meas v => v / geom meas) s.measurements d) ∧
      (data_type ≠ "volt" → post_process geom data_type s d = d) := by
  refine ⟨rfl, rfl, ?_, ?_⟩
  · intro hv
    simp [post_process, hv, apparent_resistivity_from_voltage]
  · intro hv
    simp [post_process, hv]

/-- Witness for `post_process_pure` at a concrete survey, data vector and
pair of distinct ambient states. -/
theorem post_process_pure_witness :
    (post_process_run (0 : ℕ) (fun _ => 1) "volt" demo_survey [2]).1 =
        (post_process_run (1 : ℕ) (fun _ => 1) "volt" demo_survey [2]).1 ∧
      (post_process_run (0 : ℕ) (fun _ => 1) "volt" demo_survey [2]).2 = 0 ∧
      post_process (fun _ => 1) "volt" demo_survey [2] =
        List.zipWith (fun meas v => v / (fun _ => (1 : ℚ)) meas)
          demo_survey.measurements [2] := by
  have h := post_process_pure (0 : ℕ) (1 : ℕ) (fun _ => 1) "volt"
    demo_survey [2]
  exact ⟨h.1, h.2.1, h.2.2.1 rfl⟩

end Agrogeo
